import Mathlib

/-!
Shallow embedding of the timeline data-transformation hooks of
`openmrs-esm-patient-chart` (file `useTimelineData.ts`): the time-axis
column builder `parseTime`, the row grouper `parseEntries`, and the three
orchestrators `useTimelineData`, `useAllTimelineData`, `usePatientPanels`.

Modelling choices:
* `dayjs` formatting is an external collaborator; the three derived labels
  (`year`, `'DD - MMM'`, `'HH:mm'`) are parameters (`DateFns`).
* JavaScript arrays with holes become `List (Option ObsRecord)`; assigning
  beyond the length pads with `none` (holes read back as `undefined`, which
  is also what the final spread `[...value]` produces for them).
* `Record<string, _>` objects (insertion ordered) become association lists.
* A thrown `TypeError` (reading `members` of an entry that has none, then
  calling `.forEach` on `undefined`) becomes `Option`: `none` is the throw.
* `Error` values are modelled by their message string; a JS `Error` object
  is always truthy, so "error is truthy" is `Option.isSome`.
-/

/-- The three `dayjs` derivations used by `parseTime`:
`year().toString()`, `format('DD - MMM')`, `format('HH:mm')`. -/
structure DateFns where
  yearOf : String → String
  dayOf : String → String
  timeOf : String → String

structure YearColumn where
  year : String
  size : Nat
deriving Repr, DecidableEq

structure DayColumn where
  year : String
  day : String
  size : Nat
deriving Repr, DecidableEq

structure ParsedTime where
  yearColumns : List YearColumn
  dayColumns : List DayColumn
  timeColumns : List String
  sortedTimes : List String
deriving Repr, DecidableEq

/-- One step of the `yearColumns` accumulation:
`yearColumns.find(c => c.year === year)` bumps the first matching column's
`size`; otherwise `yearColumns.push({year, size: 1})`. -/
def addYear : List YearColumn → String → List YearColumn
  | [], y => [⟨y, 1⟩]
  | c :: rest, y =>
    if c.year = y then ⟨c.year, c.size + 1⟩ :: rest
    else c :: addYear rest y

/-- One step of the `dayColumns` accumulation, keyed on the
`(year, day)` pair. -/
def addDay : List DayColumn → String → String → List DayColumn
  | [], y, d => [⟨y, d, 1⟩]
  | c :: rest, y, d =>
    if c.year = y ∧ c.day = d then ⟨c.year, c.day, c.size + 1⟩ :: rest
    else c :: addDay rest y d

/-- `parseTime`: the source's single `forEach` updates three independent
accumulators (`yearColumns`, `dayColumns`, `timeColumns`), rendered here as
three independent passes over the same list, and echoes its input. -/
def parseTime (fmt : DateFns) (sortedTimes : List String) : ParsedTime :=
  { yearColumns := sortedTimes.foldl (fun cols t => addYear cols (fmt.yearOf t)) []
    dayColumns := sortedTimes.foldl (fun cols t => addDay cols (fmt.yearOf t) (fmt.dayOf t)) []
    timeColumns := sortedTimes.map fmt.timeOf
    sortedTimes := sortedTimes }

/-- An observation record: `name`, `effectiveDateTime`, `uuid`, and an
optional nested `members` list (present on panel/set records). -/
inductive ObsRecord where
  | mk (name : String) (effectiveDateTime : String) (uuid : String)
      (members : Option (List ObsRecord)) : ObsRecord

def ObsRecord.name : ObsRecord → String
  | .mk n _ _ _ => n

def ObsRecord.effectiveDateTime : ObsRecord → String
  | .mk _ t _ _ => t

def ObsRecord.uuid : ObsRecord → String
  | .mk _ _ u _ => u

def ObsRecord.members : ObsRecord → Option (List ObsRecord)
  | .mk _ _ _ m => m

/-- A row: JS array of `ObsRecord | undefined`, holes explicit. -/
abbrev Row := List (Option ObsRecord)

/-- `Record<string, Array<ObsRecord | undefined>>`, insertion ordered. -/
abbrev Rows := List (String × Row)

/-- `row[i] = v` on a JS array: overwrite in range, otherwise extend with
holes up to `i` and set. -/
def setAt : Row → Nat → ObsRecord → Row
  | [], 0, v => [some v]
  | [], Nat.succ n, v => none :: setAt [] n v
  | _ :: rest, 0, v => some v :: rest
  | c :: rest, Nat.succ n, v => c :: setAt rest n v

/-- `const row = rows[name] || (rows[name] = []); row[i] = v`:
find-or-create the row for `name`, set position `i`. -/
def updateRows : Rows → String → Nat → ObsRecord → Rows
  | [], name, i, v => [(name, setAt [] i v)]
  | (k, r) :: rest, name, i, v =>
    if k = name then (k, setAt r i v) :: rest
    else (k, r) :: updateRows rest name i v

/-- The `LabSet` branch of `parseEntries`: for the entry at index `i`,
destructure `members` (throwing — `none` — when absent) and place every
member into the row keyed by the member's `name` at column `i`. -/
def labSetLoop : List ObsRecord → Nat → Rows → Option Rows
  | [], _, rows => some rows
  | e :: rest, i, rows =>
    match e.members with
    | none => none
    | some ms =>
      labSetLoop rest (i + 1)
        (ms.foldl (fun r m => updateRows r m.name i m) rows)

/-- The `Test` branch of `parseEntries`: the entry at index `i` is placed
into the row keyed by its own `name` at column `i`. -/
def testLoop : List ObsRecord → Nat → Rows → Rows
  | [], _, rows => rows
  | e :: rest, i, rows => testLoop rest (i + 1) (updateRows rows e.name i e)

/-- `parseEntries(entries, type)`. The final
`Object.entries(rows).forEach(([k, v]) => rows[k] = [...v])` copies each
row, turning holes into explicit `undefined` — the identity at this
abstraction level, where holes are already explicit `none`. -/
def parseEntries (entries : List ObsRecord) (type : String) : Option Rows :=
  if type = "LabSet" then labSetLoop entries 0 []
  else if type = "Test" then some (testLoop entries 0 [])
  else some []

/-- Read cell `i` of the row keyed `name`: missing row, out-of-range index
and explicit hole all read as `none` (JS `undefined`). -/
def getCell (rows : Rows) (name : String) (i : Nat) : Option ObsRecord :=
  match List.lookup name rows with
  | none => none
  | some row =>
    match row.get? i with
    | none => none
    | some cell => cell

/-- A panel: the value under one key of `sortedObs`. -/
structure Panel where
  uuid : String
  type : String
  entries : List ObsRecord

/-- Upstream `usePatientResultsData` result `{sortedObs, loaded, error}`.
`sortedObs` is `undefined` (`none`) until data arrives; `error` is a JS
`Error` modelled by its message. -/
structure FetchResult where
  sortedObs : Option (List (String × Panel))
  loaded : Bool
  error : Option String

/-- The `data` payload of a timeline result: either the placeholder
`{parsedTime: {}}` of the not-ready / not-found branches, or the full
`{parsedTime, rowData, panelName}`. -/
inductive TimelineData where
  | empty : TimelineData
  | full (parsedTime : ParsedTime) (rowData : Rows) (panelName : String) : TimelineData

structure TimelineResult where
  data : TimelineData
  loaded : Bool
  error : Option String

/-- `useTimelineData`, as a pure function of the upstream fetch result and
the optional `panelUuid` (the `useMemo` is reactive caching of this pure
computation). `none` models a `TypeError` escaping from `parseEntries`. -/
def useTimelineData (fmt : DateFns) (fetch : FetchResult)
    (panelUuid : Option String) : Option TimelineResult :=
  if fetch.sortedObs.isNone || !fetch.loaded || fetch.error.isSome then
    some ⟨.empty, fetch.loaded, fetch.error⟩
  else
    match (fetch.sortedObs.getD []).find? (fun kv => panelUuid = some kv.2.uuid) with
    | none => some ⟨.empty, fetch.loaded, some "panel data missing"⟩
    | some (panelName, panelData) =>
      let times := panelData.entries.map ObsRecord.effectiveDateTime
      match parseEntries panelData.entries panelData.type with
      | none => none
      | some rowData =>
        some ⟨.full (parseTime fmt times) rowData panelName, true, none⟩

structure AllTimelineResult where
  data : List TimelineData
  loaded : Bool
  error : Option String

/-- `useAllTimelineData`: one `{parsedTime, rowData, panelName}` per panel,
in `sortedObs` iteration order. The `panelUuid` parameter is accepted but
never read. A `TypeError` thrown while processing any panel aborts the
whole computation (`none`). -/
def useAllTimelineData (fmt : DateFns) (fetch : FetchResult)
    (panelUuid : Option String) : Option AllTimelineResult :=
  if fetch.sortedObs.isNone || !fetch.loaded || fetch.error.isSome then
    some ⟨[.empty], fetch.loaded, fetch.error⟩
  else
    match (fetch.sortedObs.getD []).mapM (fun kv =>
        let times := kv.2.entries.map ObsRecord.effectiveDateTime
        (parseEntries kv.2.entries kv.2.type).map (fun rowData =>
          TimelineData.full (parseTime fmt times) rowData kv.1)) with
    | none => none
    | some outData => some ⟨outData, true, none⟩

/-- The `data` payload of `usePatientPanels`: the not-ready branch returns
the literal list `[{parsedTime: {}}]`, the ready branch an object mapping
panel name to panel uuid. -/
inductive PanelsData where
  | placeholder : PanelsData
  | mapping (m : List (String × String)) : PanelsData

structure PanelsResult where
  data : PanelsData
  loaded : Bool
  error : Option String

/-- `usePatientPanels`: maps each `sortedObs` key to its panel's `uuid`. -/
def usePatientPanels (fetch : FetchResult) : PanelsResult :=
  if fetch.sortedObs.isNone || !fetch.loaded || fetch.error.isSome then
    ⟨.placeholder, fetch.loaded, fetch.error⟩
  else
    ⟨.mapping ((fetch.sortedObs.getD []).map (fun kv => (kv.1, kv.2.uuid))), true, none⟩

/-! ### Derived observers used to state the properties -/

/-- The column for a year, if there is one (the source's
`yearColumns.find(c => c.year === year)`). -/
def findYear : List YearColumn → String → Option YearColumn
  | [], _ => none
  | c :: rest, y => if c.year = y then some c else findYear rest y

/-- The `(year, day)` key of a day column. -/
def DayColumn.key (c : DayColumn) : String × String := (c.year, c.day)

/-- The column for a `(year, day)` pair, if there is one (the source's
`dayColumns.find(c => c.day === date && c.year === year)`). -/
def findDay : List DayColumn → String → String → Option DayColumn
  | [], _, _ => none
  | c :: rest, y, d => if c.year = y ∧ c.day = d then some c else findDay rest y d

/-- Occurrence count of a `(year, day)` key along a list of timestamps,
under the `fmt` derivations. -/
def dayKeyCount (fmt : DateFns) (ts : List String) (y d : String) : Nat :=
  (ts.map (fun t => (fmt.yearOf t, fmt.dayOf t))).count (y, d)

/-- The last member named `n` in a member list — the one whose assignment
`row[index] = member` survives when several members share a name. -/
def lastNamed : List ObsRecord → String → Option ObsRecord
  | [], _ => none
  | m :: ms, n =>
    match lastNamed ms n with
    | some x => some x
    | none => if m.name = n then some m else none

/-- Whether the input records a value for test `name` at source index `j`,
per kind: for `LabSet`, entry `j` has a member so named; for `Test`,
entry `j` is itself so named. -/
def recordedAt (entries : List ObsRecord) (type : String) (name : String) (j : Nat) : Bool :=
  match entries.get? j with
  | none => false
  | some e =>
    if type = "LabSet" then (e.members.getD []).any (fun m => m.name == name)
    else e.name == name

/-- A sample stand-in for the `dayjs` derivations over ISO-8601 strings
(`YYYY-MM-DDTHH:mm`): used only to instantiate witnesses. -/
def sampleFns : DateFns :=
  ⟨fun s => s.take 4, fun s => (s.take 10).drop 8, fun s => (s.take 16).drop 11⟩

/-- Read position `j` of a single row (out of range and hole both `none`). -/
def cellAt (row : Row) (j : Nat) : Option ObsRecord :=
  match row.get? j with
  | none => none
  | some c => c

/-! ### Concrete sample data used by the witnesses -/

def gluc1 : ObsRecord := .mk "Glucose" "t1" "g1" none

def gluc4 : ObsRecord := .mk "Glucose" "t4" "g4" none

/-- Five `LabSet` entries; a `Glucose` member occurs in the 2nd and the 5th
top-level entry only (0-based indices 1 and 4). -/
def sampleLabEntries : List ObsRecord :=
  [ .mk "P0" "t0" "u0" (some [.mk "Sodium" "t0" "s0" none]),
    .mk "P1" "t1" "u1" (some [gluc1, .mk "Sodium" "t1" "s1" none]),
    .mk "P2" "t2" "u2" (some []),
    .mk "P3" "t3" "u3" (some [.mk "Potassium" "t3" "k3" none]),
    .mk "P4" "t4" "u4" (some [gluc4]) ]

def sampleLabRows : Rows := (parseEntries sampleLabEntries "LabSet").getD []

def testA0 : ObsRecord := .mk "Glucose" "t0" "a0" none

def testB1 : ObsRecord := .mk "Sodium" "t1" "b1" none

def testA2 : ObsRecord := .mk "Glucose" "t2" "a2" none

/-- Three flat `Test` entries with two distinct names. -/
def sampleTestEntries : List ObsRecord := [testA0, testB1, testA2]

def sampleTestRows : Rows := (parseEntries sampleTestEntries "Test").getD []

def samplePanel : Panel := ⟨"u1", "Test", sampleTestEntries⟩

/-- A ready upstream fetch holding one panel with uuid `"u1"`. -/
def sampleFetch : FetchResult := ⟨some [("Chemistry", samplePanel)], true, none⟩

/-- An upstream fetch that has not loaded yet. -/
def pendingFetch : FetchResult := ⟨none, false, none⟩

/-! ### Lemmas about the `yearColumns` accumulation -/

lemma keys_addYear (cols : List YearColumn) (y : String) :
    (addYear cols y).map YearColumn.year =
      if y ∈ cols.map YearColumn.year then cols.map YearColumn.year
      else cols.map YearColumn.year ++ [y] := by
  induction cols with
  | nil => simp [addYear]
  | cons c rest ih =>
    have hcases : c.year = y ∨ c.year ≠ y := em _
    rcases hcases with hc | hc
    · simp [addYear, hc]
    · have hyc : y ≠ c.year := fun h => hc h.symm
      simp only [addYear, if_neg hc, List.map_cons, ih]
      by_cases hm : y ∈ rest.map YearColumn.year
      · simp [hm, hyc]
      · simp [hm, hyc]

lemma nodup_keys_addYear (cols : List YearColumn) (y : String)
    (h : (cols.map YearColumn.year).Nodup) :
    ((addYear cols y).map YearColumn.year).Nodup := by
  rw [keys_addYear]
  by_cases hm : y ∈ cols.map YearColumn.year
  · simpa [hm] using h
  · simpa [hm] using List.Nodup.append h (List.nodup_singleton y) (by simpa using hm)

lemma findYear_addYear (cols : List YearColumn) (y y' : String) :
    findYear (addYear cols y) y' =
      if y = y' then
        match findYear cols y' with
        | some c => some ⟨c.year, c.size + 1⟩
        | none => some ⟨y, 1⟩
      else findYear cols y' := by
  induction cols with
  | nil =>
    by_cases hy : y = y' <;> simp [addYear, findYear, hy]
  | cons c rest ih =>
    by_cases hc : c.year = y
    · subst hc
      by_cases hy : c.year = y' <;> simp [addYear, findYear, hy]
    · by_cases hcy : c.year = y'
      · have hy : ¬ y = y' := fun h => hc (h ▸ hcy)
        have hy' : y' ≠ y := fun h => hy h.symm
        simp [addYear, hc, findYear, hcy, hy, hy']
      · by_cases hy : y = y'
        · subst hy
          simp [addYear, hc, findYear, hcy, ih]
        · simp [addYear, hc, findYear, hcy, hy, ih]

lemma foldl_addYear_findYear (ys : List String) (cols : List YearColumn) (y : String) :
    findYear (ys.foldl addYear cols) y =
      match findYear cols y with
      | some c => some ⟨c.year, c.size + ys.count y⟩
      | none => if y ∈ ys then some ⟨y, ys.count y⟩ else none := by
  induction ys generalizing cols with
  | nil =>
    match h : findYear cols y with
    | some c => simp [h]
    | none => simp [h]
  | cons t ts ih =>
    rw [List.foldl_cons, ih, findYear_addYear]
    by_cases ht : t = y
    · subst ht
      match h : findYear cols t with
      | some c => simp [h, List.count_cons, Nat.add_comm, Nat.add_assoc, Nat.add_left_comm]
      | none => simp [h, List.count_cons, Nat.add_comm]
    · match h : findYear cols y with
      | some c => simp [h, ht, List.count_cons, Ne.symm ht]
      | none => simp [h, ht, List.count_cons, Ne.symm ht]

lemma nodup_keys_foldl_addYear (ys : List String) (cols : List YearColumn)
    (h : (cols.map YearColumn.year).Nodup) :
    ((ys.foldl addYear cols).map YearColumn.year).Nodup := by
  induction ys generalizing cols with
  | nil => exact h
  | cons t ts ih => exact ih _ (nodup_keys_addYear _ _ h)

lemma sizeSum_addYear (cols : List YearColumn) (y : String) :
    ((addYear cols y).map YearColumn.size).sum = ((cols.map YearColumn.size).sum) + 1 := by
  induction cols with
  | nil => simp [addYear]
  | cons c rest ih =>
    by_cases hc : c.year = y
    · simp [addYear, hc, Nat.add_assoc, Nat.add_comm, Nat.add_left_comm]
    · simp [addYear, hc, ih, Nat.add_assoc, Nat.add_comm, Nat.add_left_comm]

lemma sizeSum_foldl_addYear (ys : List String) (cols : List YearColumn) :
    (((ys.foldl addYear cols)).map YearColumn.size).sum =
      ((cols.map YearColumn.size).sum) + ys.length := by
  induction ys generalizing cols with
  | nil => simp
  | cons t ts ih => rw [List.foldl_cons, ih, sizeSum_addYear, List.length_cons]; omega

lemma findYear_of_mem_nodup (cols : List YearColumn)
    (h : (cols.map YearColumn.year).Nodup) (c : YearColumn) (hc : c ∈ cols) :
    findYear cols c.year = some c := by
  induction cols with
  | nil => cases hc
  | cons d rest ih =>
    rcases List.mem_cons.mp hc with rfl | hmem
    · simp [findYear]
    · have hd : d.year ≠ c.year := by
        intro he
        exact (List.nodup_cons.mp h).1 (he ▸ List.mem_map_of_mem YearColumn.year hmem)
      simpa [findYear, hd] using ih (List.nodup_cons.mp h).2 hmem

lemma findYear_mem (cols : List YearColumn) (y : String) (c : YearColumn)
    (h : findYear cols y = some c) : c ∈ cols ∧ c.year = y := by
  induction cols with
  | nil => simp [findYear] at h
  | cons d rest ih =>
    by_cases hd : d.year = y
    · simp only [findYear, if_pos hd, Option.some.injEq] at h
      exact ⟨h ▸ List.mem_cons_self d rest, h ▸ hd⟩
    · simp only [findYear, if_neg hd] at h
      exact ⟨List.mem_cons_of_mem d (ih h).1, (ih h).2⟩

/-! ### Lemmas about the `dayColumns` accumulation (keyed on `(year, day)`) -/

lemma keys_addDay (cols : List DayColumn) (y d : String) :
    (addDay cols y d).map DayColumn.key =
      if (y, d) ∈ cols.map DayColumn.key then cols.map DayColumn.key
      else cols.map DayColumn.key ++ [(y, d)] := by
  induction cols with
  | nil => simp [addDay, DayColumn.key]
  | cons c rest ih =>
    by_cases hc : c.year = y ∧ c.day = d
    · simp [addDay, hc, DayColumn.key, hc.1, hc.2]
    · have hck : (y, d) ≠ c.key := by
        intro h
        exact hc ⟨congrArg Prod.fst h.symm, congrArg Prod.snd h.symm⟩
      simp only [addDay, if_neg hc, List.map_cons, ih]
      by_cases hm : (y, d) ∈ rest.map DayColumn.key
      · simp [hm, hck]
      · simp [hm, hck]

lemma nodup_keys_addDay (cols : List DayColumn) (y d : String)
    (h : (cols.map DayColumn.key).Nodup) :
    ((addDay cols y d).map DayColumn.key).Nodup := by
  rw [keys_addDay]
  by_cases hm : (y, d) ∈ cols.map DayColumn.key
  · simpa [hm] using h
  · simpa [hm] using List.Nodup.append h (List.nodup_singleton (y, d)) (by simpa using hm)

lemma findDay_addDay (cols : List DayColumn) (y d y' d' : String) :
    findDay (addDay cols y d) y' d' =
      if y = y' ∧ d = d' then
        match findDay cols y' d' with
        | some c => some ⟨c.year, c.day, c.size + 1⟩
        | none => some ⟨y, d, 1⟩
      else findDay cols y' d' := by
  induction cols with
  | nil =>
    by_cases hy : y = y' ∧ d = d'
    · simp [addDay, findDay, hy, hy.1, hy.2]
    · simp [addDay, findDay, hy]
  | cons c rest ih =>
    by_cases hc : c.year = y ∧ c.day = d
    · by_cases hy : y = y' ∧ d = d'
      · simp [addDay, hc, findDay, hc.1, hc.2, hy.1, hy.2]
      · have hcn : ¬ (c.year = y' ∧ c.day = d') := by
          intro h
          exact hy ⟨hc.1 ▸ h.1, hc.2 ▸ h.2⟩
        simp only [addDay, if_pos hc, findDay]
        have hcn' : ¬ (c.year = y' ∧ c.day = d') := hcn
        simp [hcn, hy, findDay]
    · by_cases hcy : c.year = y' ∧ c.day = d'
      · have hy : ¬ (y = y' ∧ d = d') := by
          intro h
          exact hc ⟨h.1 ▸ hcy.1, h.2 ▸ hcy.2⟩
        have hc2 : ¬ (y' = y ∧ d' = d) := fun h => hc ⟨hcy.1.trans h.1, hcy.2.trans h.2⟩
        simp [addDay, hc, findDay, hcy, hy, hc2]
      · by_cases hy : y = y' ∧ d = d'
        · obtain ⟨rfl, rfl⟩ := hy
          simp [addDay, hc, findDay, hcy, ih]
        · simp [addDay, hc, findDay, hcy, hy, ih]

lemma foldl_addDay_findDay (fmt : DateFns) (ts : List String)
    (cols : List DayColumn) (y d : String) :
    findDay (ts.foldl (fun cols t => addDay cols (fmt.yearOf t) (fmt.dayOf t)) cols) y d =
      match findDay cols y d with
      | some c => some ⟨c.year, c.day, c.size + dayKeyCount fmt ts y d⟩
      | none =>
        if (y, d) ∈ ts.map (fun t => (fmt.yearOf t, fmt.dayOf t)) then
          some ⟨y, d, dayKeyCount fmt ts y d⟩
        else none := by
  induction ts generalizing cols with
  | nil =>
    match h : findDay cols y d with
    | some c => simp [h, dayKeyCount]
    | none => simp [h, dayKeyCount]
  | cons t ts ih =>
    rw [List.foldl_cons, ih, findDay_addDay]
    by_cases ht : fmt.yearOf t = y ∧ fmt.dayOf t = d
    · obtain ⟨h1, h2⟩ := ht
      match h : findDay cols y d with
      | some c =>
        simp [h, h1, h2, dayKeyCount, List.count_cons, Nat.add_comm, Nat.add_assoc,
          Nat.add_left_comm]
      | none => simp [h, h1, h2, dayKeyCount, List.count_cons, Nat.add_comm]
    · have hne : ((y, d) : String × String) ≠ (fmt.yearOf t, fmt.dayOf t) := by
        intro h
        exact ht ⟨(congrArg Prod.fst h).symm, (congrArg Prod.snd h).symm⟩
      match h : findDay cols y d with
      | some c => simp [h, ht, dayKeyCount, List.count_cons, hne]
      | none => simp [h, ht, dayKeyCount, List.count_cons, hne]

lemma nodup_keys_foldl_addDay (fmt : DateFns) (ts : List String) (cols : List DayColumn)
    (h : (cols.map DayColumn.key).Nodup) :
    ((ts.foldl (fun cols t => addDay cols (fmt.yearOf t) (fmt.dayOf t)) cols).map
      DayColumn.key).Nodup := by
  induction ts generalizing cols with
  | nil => exact h
  | cons t ts ih => exact ih _ (nodup_keys_addDay _ _ _ h)

lemma sizeSum_addDay (cols : List DayColumn) (y d : String) :
    ((addDay cols y d).map DayColumn.size).sum = ((cols.map DayColumn.size).sum) + 1 := by
  induction cols with
  | nil => simp [addDay]
  | cons c rest ih =>
    by_cases hc : c.year = y ∧ c.day = d
    · simp [addDay, hc, Nat.add_assoc, Nat.add_comm, Nat.add_left_comm]
    · simp [addDay, hc, ih, Nat.add_assoc, Nat.add_comm, Nat.add_left_comm]

lemma sizeSum_foldl_addDay (fmt : DateFns) (ts : List String) (cols : List DayColumn) :
    ((ts.foldl (fun cols t => addDay cols (fmt.yearOf t) (fmt.dayOf t)) cols).map
        DayColumn.size).sum =
      ((cols.map DayColumn.size).sum) + ts.length := by
  induction ts generalizing cols with
  | nil => simp
  | cons t ts ih => rw [List.foldl_cons, ih, sizeSum_addDay, List.length_cons]; omega

lemma findDay_of_mem_nodup (cols : List DayColumn)
    (h : (cols.map DayColumn.key).Nodup) (c : DayColumn) (hc : c ∈ cols) :
    findDay cols c.year c.day = some c := by
  induction cols with
  | nil => cases hc
  | cons e rest ih =>
    rcases List.mem_cons.mp hc with rfl | hmem
    · simp [findDay]
    · have he : ¬ (e.year = c.year ∧ e.day = c.day) := by
        intro hk
        have : e.key = c.key := by
          simp [DayColumn.key, hk.1, hk.2]
        exact (List.nodup_cons.mp h).1 (this ▸ List.mem_map_of_mem DayColumn.key hmem)
      simpa [findDay, he] using ih (List.nodup_cons.mp h).2 hmem

lemma findDay_mem (cols : List DayColumn) (y d : String) (c : DayColumn)
    (h : findDay cols y d = some c) : c ∈ cols ∧ c.year = y ∧ c.day = d := by
  induction cols with
  | nil => simp [findDay] at h
  | cons e rest ih =>
    by_cases he : e.year = y ∧ e.day = d
    · simp only [findDay, if_pos he, Option.some.injEq] at h
      exact ⟨h ▸ List.mem_cons_self e rest, h ▸ he⟩
    · simp only [findDay, if_neg he] at h
      exact ⟨List.mem_cons_of_mem e (ih h).1, (ih h).2⟩

lemma parseTime_yearColumns (fmt : DateFns) (ts : List String) :
    (parseTime fmt ts).yearColumns = (ts.map fmt.yearOf).foldl addYear [] := by
  simp [parseTime, List.foldl_map]

/-- C1. `parseTime` builds `yearColumns` by a linear find-or-create scan
keyed on the year string: the columns carry pairwise distinct years, a
column for year `y` exists iff `y` occurs among the derived years, and its
`size` counts every occurrence of `y` anywhere in the input (so a year
occurring twice non-consecutively still yields a single merged column);
`dayColumns` follows the identical rule keyed on the `(year, day)` pair. -/
theorem parseTime_find_or_create (fmt : DateFns) (ts : List String) :
    ((parseTime fmt ts).yearColumns.map YearColumn.year).Nodup ∧
    (∀ y : String,
      findYear (parseTime fmt ts).yearColumns y =
        if y ∈ ts.map fmt.yearOf then some ⟨y, (ts.map fmt.yearOf).count y⟩
        else none) ∧
    ((parseTime fmt ts).dayColumns.map DayColumn.key).Nodup ∧
    (∀ y d : String,
      findDay (parseTime fmt ts).dayColumns y d =
        if (y, d) ∈ ts.map (fun t => (fmt.yearOf t, fmt.dayOf t)) then
          some ⟨y, d, dayKeyCount fmt ts y d⟩
        else none) := by
  refine ⟨?_, ?_, ?_, ?_⟩
  · rw [parseTime_yearColumns]
    exact nodup_keys_foldl_addYear _ _ (by simp)
  · intro y
    rw [parseTime_yearColumns, foldl_addYear_findYear]
    simp [findYear]
  · exact nodup_keys_foldl_addDay fmt ts [] (by simp)
  · intro y d
    show findDay (ts.foldl (fun cols t => addDay cols (fmt.yearOf t) (fmt.dayOf t)) []) y d = _
    rw [foldl_addDay_findDay]
    simp [findDay]

/-- C2. For every non-empty input, `parseTime`'s `timeColumns` has the
input's length, the column sizes of `yearColumns` and of `dayColumns` each
sum to that length, and `sortedTimes` echoes the input unchanged. -/
theorem parseTime_lengths (fmt : DateFns) (ts : List String) (h : ts ≠ []) :
    (parseTime fmt ts).timeColumns.length = ts.length ∧
    (parseTime fmt ts).sortedTimes = ts ∧
    ((parseTime fmt ts).yearColumns.map YearColumn.size).sum = ts.length ∧
    ((parseTime fmt ts).dayColumns.map DayColumn.size).sum = ts.length := by
  refine ⟨by simp [parseTime], rfl, ?_, ?_⟩
  · rw [parseTime_yearColumns]
    rw [sizeSum_foldl_addYear]
    simp
  · show ((ts.foldl (fun cols t => addDay cols (fmt.yearOf t) (fmt.dayOf t)) []).map
        DayColumn.size).sum = ts.length
    rw [sizeSum_foldl_addDay]
    simp

/-- Witness for C2 at a concrete non-empty input. -/
theorem parseTime_lengths_witness :
    (parseTime sampleFns ["2023-01-05T08:00", "2023-01-05T09:30", "2023-06-20T10:00"]).timeColumns.length = 3 ∧
    (parseTime sampleFns ["2023-01-05T08:00", "2023-01-05T09:30", "2023-06-20T10:00"]).sortedTimes =
      ["2023-01-05T08:00", "2023-01-05T09:30", "2023-06-20T10:00"] ∧
    ((parseTime sampleFns ["2023-01-05T08:00", "2023-01-05T09:30", "2023-06-20T10:00"]).yearColumns.map
      YearColumn.size).sum = 3 ∧
    ((parseTime sampleFns ["2023-01-05T08:00", "2023-01-05T09:30", "2023-06-20T10:00"]).dayColumns.map
      DayColumn.size).sum = 3 :=
  parseTime_lengths sampleFns _ (List.cons_ne_nil _ _)

/-! ### Lemmas about the row grouper `parseEntries` -/


lemma getCell_eq_cellAt (rows : Rows) (name : String) (j : Nat) :
    getCell rows name j =
      match List.lookup name rows with
      | none => none
      | some row => cellAt row j := rfl

lemma cellAt_nil (j : Nat) : cellAt [] j = none := by
  cases j <;> rfl

lemma cellAt_cons_succ (c : Option ObsRecord) (row : Row) (j : Nat) :
    cellAt (c :: row) (j + 1) = cellAt row j := rfl

lemma cellAt_cons_zero (c : Option ObsRecord) (row : Row) :
    cellAt (c :: row) 0 = c := rfl

lemma cellAt_setAt : ∀ (row : Row) (i j : Nat) (v : ObsRecord),
    cellAt (setAt row i v) j = if j = i then some v else cellAt row j
  | [], 0, 0, v => rfl
  | [], 0, j + 1, v => by
    show cellAt ([some v] : Row) (j + 1) = if j + 1 = 0 then some v else cellAt [] (j + 1)
    rw [cellAt_cons_succ, cellAt_nil, cellAt_nil]
    simp
  | [], i + 1, 0, v => by
    show cellAt (none :: setAt [] i v) 0 = if 0 = i + 1 then some v else cellAt [] 0
    rw [cellAt_cons_zero, cellAt_nil]
    simp
  | [], i + 1, j + 1, v => by
    show cellAt (none :: setAt [] i v) (j + 1) =
      if j + 1 = i + 1 then some v else cellAt [] (j + 1)
    rw [cellAt_cons_succ, cellAt_setAt [] i j v, cellAt_nil, cellAt_nil]
    by_cases hj : j = i
    · simp [hj]
    · have hj' : ¬ (j + 1 = i + 1) := by omega
      simp [hj, hj']
  | c :: rest, 0, 0, v => rfl
  | c :: rest, 0, j + 1, v => by
    show cellAt (some v :: rest) (j + 1) = if j + 1 = 0 then some v else cellAt (c :: rest) (j + 1)
    rw [cellAt_cons_succ, cellAt_cons_succ]
    simp
  | c :: rest, i + 1, 0, v => by
    show cellAt (c :: setAt rest i v) 0 = if 0 = i + 1 then some v else cellAt (c :: rest) 0
    rw [cellAt_cons_zero, cellAt_cons_zero]
    simp
  | c :: rest, i + 1, j + 1, v => by
    show cellAt (c :: setAt rest i v) (j + 1) =
      if j + 1 = i + 1 then some v else cellAt (c :: rest) (j + 1)
    rw [cellAt_cons_succ, cellAt_cons_succ, cellAt_setAt rest i j v]
    by_cases hj : j = i
    · simp [hj]
    · have hj' : ¬ (j + 1 = i + 1) := by omega
      simp [hj, hj']

lemma getCell_nil (name : String) (j : Nat) : getCell [] name j = none := rfl

lemma getCell_cons (k : String) (r : Row) (rest : Rows) (name : String) (j : Nat) :
    getCell ((k, r) :: rest) name j =
      if name = k then cellAt r j else getCell rest name j := by
  by_cases h : name = k
  · simp [getCell_eq_cellAt, List.lookup, h]
  · have hb : (name == k) = false := beq_eq_false_iff_ne.mpr h
    simp [getCell_eq_cellAt, List.lookup, hb, h]

lemma getCell_updateRows (rows : Rows) (name : String) (i : Nat) (v : ObsRecord)
    (name' : String) (j : Nat) :
    getCell (updateRows rows name i v) name' j =
      if name' = name ∧ j = i then some v else getCell rows name' j := by
  induction rows with
  | nil =>
    show getCell [(name, setAt [] i v)] name' j = _
    rw [getCell_cons, getCell_nil]
    by_cases hn : name' = name
    · rw [if_pos hn, cellAt_setAt, cellAt_nil]
      by_cases hj : j = i <;> simp [hn, hj]
    · simp [hn]
  | cons kv rest ih =>
    obtain ⟨k, r⟩ := kv
    by_cases hk : k = name
    · subst hk
      rw [show updateRows ((k, r) :: rest) k i v = (k, setAt r i v) :: rest from by
        simp [updateRows]]
      rw [getCell_cons, getCell_cons]
      by_cases hn : name' = k
      · rw [if_pos hn, if_pos hn, cellAt_setAt]
        by_cases hj : j = i <;> simp [hn, hj]
      · simp [hn]
    · rw [show updateRows ((k, r) :: rest) name i v = (k, r) :: updateRows rest name i v from by
        simp [updateRows, hk]]
      rw [getCell_cons, getCell_cons, ih]
      by_cases hn : name' = k
      · have hnn : ¬ (name' = name) := fun h => hk (hn ▸ h)
        simp [hn, hnn, hk]
      · simp [hn]

lemma getCell_foldMembers (ms : List ObsRecord) (rows : Rows) (i : Nat)
    (name : String) (j : Nat) :
    getCell (ms.foldl (fun r m => updateRows r m.name i m) rows) name j =
      if j = i then
        match lastNamed ms name with
        | some m => some m
        | none => getCell rows name j
      else getCell rows name j := by
  induction ms generalizing rows with
  | nil =>
    by_cases hj : j = i <;> simp [lastNamed, hj]
  | cons m ms ih =>
    rw [List.foldl_cons, ih]
    by_cases hj : j = i
    · subst hj
      rw [if_pos rfl, if_pos rfl]
      match h : lastNamed ms name with
      | some x => simp only [lastNamed, h]
      | none =>
        rw [getCell_updateRows]
        by_cases hm : m.name = name
        · have hn : name = m.name ∧ j = j := ⟨hm.symm, rfl⟩
          rw [if_pos hn]
          simp only [lastNamed, h, if_pos hm]
        · have hn : ¬ (name = m.name ∧ j = j) := fun hh => hm hh.1.symm
          rw [if_neg hn]
          simp only [lastNamed, h, if_neg hm]
    · rw [if_neg hj, if_neg hj, getCell_updateRows]
      have hne : ¬ (name = m.name ∧ j = i) := fun hh => hj hh.2
      rw [if_neg hne]

lemma labSetLoop_getCell (es : List ObsRecord) (i0 : Nat) (acc rows : Rows)
    (h : labSetLoop es i0 acc = some rows)
    (hacc : ∀ name j, i0 ≤ j → getCell acc name j = none)
    (name : String) (j : Nat) :
    getCell rows name j =
      if j < i0 then getCell acc name j
      else
        match es.get? (j - i0) with
        | none => none
        | some e => lastNamed (e.members.getD []) name := by
  induction es generalizing i0 acc with
  | nil =>
    simp only [labSetLoop, Option.some.injEq] at h
    subst h
    by_cases hj : j < i0
    · simp [hj]
    · simp [hj, hacc name j (by omega)]
  | cons e es ih =>
    match hm : e.members with
    | none => simp [labSetLoop, hm] at h
    | some ms =>
      simp only [labSetLoop, hm] at h
      have hacc2 : ∀ name j, i0 + 1 ≤ j →
          getCell (ms.foldl (fun r m => updateRows r m.name i0 m) acc) name j = none := by
        intro n k hk
        rw [getCell_foldMembers]
        have hne : ¬ (k = i0) := by omega
        rw [if_neg hne]
        exact hacc n k (by omega)
      rw [ih (i0 + 1) _ h hacc2]
      by_cases hj : j < i0
      · have hj1 : j < i0 + 1 := by omega
        rw [if_pos hj1, if_pos hj, getCell_foldMembers]
        have : ¬ (j = i0) := by omega
        simp [this]
      · by_cases hje : j = i0
        · subst hje
          have hj1 : j < j + 1 := by omega
          rw [if_pos hj1, if_neg (by omega : ¬ j < j), getCell_foldMembers]
          have hsub : j - j = 0 := by omega
          rw [hsub]
          simp only [List.get?, hm, Option.getD_some, if_pos rfl]
          match hl : lastNamed ms name with
          | some x => rfl
          | none =>
            rw [hacc name j (by omega)]
            simp
        · have hj1 : ¬ (j < i0 + 1) := by omega
          rw [if_neg hj1, if_neg hj]
          have hsub : j - i0 = (j - (i0 + 1)) + 1 := by omega
          rw [hsub]
          rfl

lemma testLoop_getCell (es : List ObsRecord) (i0 : Nat) (acc : Rows)
    (hacc : ∀ name j, i0 ≤ j → getCell acc name j = none)
    (name : String) (j : Nat) :
    getCell (testLoop es i0 acc) name j =
      if j < i0 then getCell acc name j
      else
        match es.get? (j - i0) with
        | none => none
        | some e => if e.name = name then some e else none := by
  induction es generalizing i0 acc with
  | nil =>
    by_cases hj : j < i0
    · rw [if_pos hj]
      rfl
    · rw [if_neg hj]
      show getCell acc name j = _
      rw [hacc name j (by omega)]
      rfl
  | cons e es ih =>
    have hacc2 : ∀ n k, i0 + 1 ≤ k → getCell (updateRows acc e.name i0 e) n k = none := by
      intro n k hk
      rw [getCell_updateRows]
      have hne : ¬ (n = e.name ∧ k = i0) := fun hcon => absurd hcon.2 (by omega)
      rw [if_neg hne]
      exact hacc n k (by omega)
    rw [show testLoop (e :: es) i0 acc = testLoop es (i0 + 1) (updateRows acc e.name i0 e)
      from rfl]
    rw [ih (i0 + 1) _ hacc2]
    by_cases hj : j < i0
    · have hj1 : j < i0 + 1 := by omega
      rw [if_pos hj1, if_pos hj, getCell_updateRows]
      have : ¬ (j = i0) := by omega
      simp [this]
    · by_cases hje : j = i0
      · subst hje
        have hj1 : j < j + 1 := by omega
        rw [if_pos hj1, if_neg (by omega : ¬ j < j), getCell_updateRows]
        have hsub : j - j = 0 := by omega
        rw [hsub]
        by_cases hn : e.name = name
        · have hc : name = e.name ∧ j = j := ⟨hn.symm, rfl⟩
          rw [if_pos hc]
          show some e = if e.name = name then some e else none
          rw [if_pos hn]
        · have hc : ¬ (name = e.name ∧ j = j) := fun hcon => hn hcon.1.symm
          rw [if_neg hc]
          show getCell acc name j = if e.name = name then some e else none
          rw [if_neg hn]
          exact hacc name j (by omega)
      · have hj1 : ¬ (j < i0 + 1) := by omega
        rw [if_neg hj1, if_neg hj]
        have hsub : j - i0 = (j - (i0 + 1)) + 1 := by omega
        rw [hsub]
        rfl

lemma keys_updateRows (rows : Rows) (name : String) (i : Nat) (v : ObsRecord) :
    (updateRows rows name i v).map Prod.fst =
      if name ∈ rows.map Prod.fst then rows.map Prod.fst
      else rows.map Prod.fst ++ [name] := by
  induction rows with
  | nil => simp [updateRows]
  | cons kv rest ih =>
    obtain ⟨k, r⟩ := kv
    by_cases hk : k = name
    · subst hk
      simp [updateRows]
    · have hnk : name ≠ k := fun h => hk h.symm
      simp only [updateRows, if_neg hk, List.map_cons, ih]
      by_cases hm : name ∈ rest.map Prod.fst
      · simp [hm, hnk]
      · simp [hm, hnk]

lemma mem_keys_updateRows (rows : Rows) (name : String) (i : Nat) (v : ObsRecord)
    (n : String) :
    n ∈ (updateRows rows name i v).map Prod.fst ↔
      n ∈ rows.map Prod.fst ∨ n = name := by
  rw [keys_updateRows]
  by_cases hm : name ∈ rows.map Prod.fst
  · rw [if_pos hm]
    constructor
    · exact Or.inl
    · rintro (h | rfl)
      · exact h
      · exact hm
  · rw [if_neg hm]
    simp

lemma nodup_keys_updateRows (rows : Rows) (name : String) (i : Nat) (v : ObsRecord)
    (h : (rows.map Prod.fst).Nodup) :
    ((updateRows rows name i v).map Prod.fst).Nodup := by
  rw [keys_updateRows]
  by_cases hm : name ∈ rows.map Prod.fst
  · simpa [hm] using h
  · simpa [hm] using List.Nodup.append h (List.nodup_singleton name) (by simpa using hm)

lemma mem_keys_testLoop (es : List ObsRecord) (i0 : Nat) (acc : Rows) (n : String) :
    n ∈ (testLoop es i0 acc).map Prod.fst ↔
      n ∈ acc.map Prod.fst ∨ n ∈ es.map ObsRecord.name := by
  induction es generalizing i0 acc with
  | nil => simp [testLoop]
  | cons e es ih =>
    rw [show testLoop (e :: es) i0 acc = testLoop es (i0 + 1) (updateRows acc e.name i0 e)
      from rfl]
    rw [ih, mem_keys_updateRows]
    simp only [List.map_cons, List.mem_cons]
    constructor
    · rintro ((h | rfl) | h)
      · exact Or.inl h
      · exact Or.inr (Or.inl rfl)
      · exact Or.inr (Or.inr h)
    · rintro (h | rfl | h)
      · exact Or.inl (Or.inl h)
      · exact Or.inl (Or.inr rfl)
      · exact Or.inr h

lemma nodup_keys_testLoop (es : List ObsRecord) (i0 : Nat) (acc : Rows)
    (h : (acc.map Prod.fst).Nodup) :
    ((testLoop es i0 acc).map Prod.fst).Nodup := by
  induction es generalizing i0 acc with
  | nil => exact h
  | cons e es ih => exact ih _ _ (nodup_keys_updateRows _ _ _ _ h)

lemma lastNamed_isSome (ms : List ObsRecord) (n : String) :
    (lastNamed ms n).isSome = ms.any (fun m => m.name == n) := by
  induction ms with
  | nil => rfl
  | cons m ms ih =>
    simp only [lastNamed, List.any_cons]
    match h : lastNamed ms n with
    | some x =>
      rw [h] at ih
      simp [← ih]
    | none =>
      rw [h] at ih
      by_cases hm : m.name = n
      · simp [hm, ← ih]
      · simp [hm, ← ih]

lemma labSetLoop_isSome (es : List ObsRecord) (i0 : Nat) (acc : Rows) :
    (labSetLoop es i0 acc).isSome ↔ ∀ e ∈ es, e.members.isSome := by
  induction es generalizing i0 acc with
  | nil => simp [labSetLoop]
  | cons e es ih =>
    match hm : e.members with
    | none => simp [labSetLoop, hm]
    | some ms => simp [labSetLoop, hm, ih]

lemma parseEntries_labSet_eq (entries : List ObsRecord) :
    parseEntries entries "LabSet" = labSetLoop entries 0 [] := by
  simp [parseEntries]

lemma parseEntries_test_eq (entries : List ObsRecord) :
    parseEntries entries "Test" = some (testLoop entries 0 []) := by
  have hne : ¬ (("Test" : String) = "LabSet") := by decide
  simp [parseEntries, hne]

lemma getCell_empty (name : String) (j : Nat) : getCell [] name j = none := rfl

/-- C3. For kind `LabSet`, the grouper places each member of the top-level
entry at source index `i` into the row keyed by the member's name at column
index `i` (the parent's index): the cell `(name, j)` holds exactly the last
member named `name` of entry `j`, and is an absent gap otherwise. -/
theorem parseEntries_labSet_cells (entries : List ObsRecord) (rows : Rows)
    (h : parseEntries entries "LabSet" = some rows) (name : String) (j : Nat) :
    getCell rows name j =
      match entries.get? j with
      | none => none
      | some e => lastNamed (e.members.getD []) name := by
  rw [parseEntries_labSet_eq] at h
  have := labSetLoop_getCell entries 0 [] rows h
    (fun n k _ => getCell_empty n k) name j
  rw [this, if_neg (by omega : ¬ j < 0), Nat.sub_zero]

/-- Witness for C3: with `Glucose` members in the 2nd and 5th of five
entries, the `Glucose` row is populated at 0-based indices 1 and 4 only. -/
theorem parseEntries_labSet_cells_witness :
    getCell sampleLabRows "Glucose" 0 = none ∧
    getCell sampleLabRows "Glucose" 1 = some gluc1 ∧
    getCell sampleLabRows "Glucose" 2 = none ∧
    getCell sampleLabRows "Glucose" 3 = none ∧
    getCell sampleLabRows "Glucose" 4 = some gluc4 := by
  have h : parseEntries sampleLabEntries "LabSet" = some sampleLabRows := rfl
  refine ⟨?_, ?_, ?_, ?_, ?_⟩ <;>
    rw [parseEntries_labSet_cells sampleLabEntries sampleLabRows h] <;> rfl

/-- C4. For kind `Test`, the grouper yields one row per distinct entry
name, and cell `(name, j)` holds entry `j` exactly when that entry is named
`name`, an absent gap otherwise. -/
theorem parseEntries_test_cells (entries : List ObsRecord) (rows : Rows)
    (h : parseEntries entries "Test" = some rows) :
    (rows.map Prod.fst).length = (entries.map ObsRecord.name).dedup.length ∧
    ∀ name j, getCell rows name j =
      match entries.get? j with
      | none => none
      | some e => if e.name = name then some e else none := by
  rw [parseEntries_test_eq, Option.some.injEq] at h
  subst h
  constructor
  · have h1 : ((testLoop entries 0 []).map Prod.fst).Nodup :=
      nodup_keys_testLoop entries 0 [] (by simp)
    have h2 : ∀ n, n ∈ (testLoop entries 0 []).map Prod.fst ↔
        n ∈ entries.map ObsRecord.name := by
      intro n
      rw [mem_keys_testLoop]
      simp
    have hperm : List.Perm ((testLoop entries 0 []).map Prod.fst)
        ((entries.map ObsRecord.name).dedup) :=
      (List.perm_ext_iff_of_nodup h1 (List.nodup_dedup _)).mpr
        (fun a => (h2 a).trans List.mem_dedup.symm)
    exact hperm.length_eq
  · intro name j
    have := testLoop_getCell entries 0 [] (fun n k _ => getCell_empty n k) name j
    rw [this, if_neg (by omega : ¬ j < 0), Nat.sub_zero]

/-- Witness for C4 at a concrete `Test` input with two distinct names. -/
theorem parseEntries_test_cells_witness :
    (sampleTestRows.map Prod.fst).length = 2 ∧
    getCell sampleTestRows "Glucose" 0 = some testA0 ∧
    getCell sampleTestRows "Glucose" 1 = none ∧
    getCell sampleTestRows "Glucose" 2 = some testA2 ∧
    getCell sampleTestRows "Sodium" 1 = some testB1 := by
  have h : parseEntries sampleTestEntries "Test" = some sampleTestRows := rfl
  have hmain := parseEntries_test_cells sampleTestEntries sampleTestRows h
  refine ⟨hmain.1.trans (by decide), ?_, ?_, ?_, ?_⟩ <;>
    rw [hmain.2] <;> rfl

lemma recordedAt_labSet (entries : List ObsRecord) (j : Nat) (e : ObsRecord)
    (hget : entries.get? j = some e) (name : String) :
    recordedAt entries "LabSet" name j =
      (e.members.getD []).any (fun m => m.name == name) := by
  unfold recordedAt
  rw [hget]
  rfl

lemma recordedAt_test (entries : List ObsRecord) (j : Nat) (e : ObsRecord)
    (hget : entries.get? j = some e) (name : String) :
    recordedAt entries "Test" name j = (e.name == name) := by
  unfold recordedAt
  rw [hget]
  rfl

/-- C5. For a recognized kind, every row of the result is addressable at
every index below the entry count: the cell is populated exactly when that
test was recorded there, and an explicit absent gap otherwise. -/
theorem parseEntries_rows_addressable (entries : List ObsRecord) (type : String)
    (rows : Rows) (hk : type = "LabSet" ∨ type = "Test")
    (h : parseEntries entries type = some rows)
    (name : String) (row : Row) (hrow : (name, row) ∈ rows)
    (j : Nat) (hj : j < entries.length) :
    (getCell rows name j).isSome = recordedAt entries type name j := by
  match hget : entries.get? j with
  | none =>
    exact absurd (List.get?_eq_none.mp hget) (by omega)
  | some e =>
    rcases hk with hk | hk <;> subst hk
    · rw [parseEntries_labSet_eq] at h
      have hc := labSetLoop_getCell entries 0 [] rows h
        (fun n k _ => getCell_empty n k) name j
      rw [hc, if_neg (by omega : ¬ j < 0), Nat.sub_zero, hget,
        recordedAt_labSet entries j e hget name]
      exact lastNamed_isSome _ _
    · rw [parseEntries_test_eq, Option.some.injEq] at h
      subst h
      have hc := testLoop_getCell entries 0 [] (fun n k _ => getCell_empty n k) name j
      rw [hc, if_neg (by omega : ¬ j < 0), Nat.sub_zero, hget,
        recordedAt_test entries j e hget name]
      by_cases hn : e.name = name
      · simp [hn]
      · simp [hn]

/-- Witness for C5 at the `Test` sample: the `Glucose` row is addressable
at index 1 (below the entry count 3) where it holds an explicit gap. -/
theorem parseEntries_rows_addressable_witness :
    (getCell sampleTestRows "Glucose" 1).isSome =
      recordedAt sampleTestEntries "Test" "Glucose" 1 :=
  parseEntries_rows_addressable sampleTestEntries "Test" sampleTestRows
    (Or.inr rfl) rfl "Glucose" [some testA0, none, some testA2]
    (List.mem_cons_self _ _) 1 (by decide)

/-- C6. For any kind other than `LabSet` and `Test`, the grouper returns an
empty mapping and raises no error. -/
theorem parseEntries_unknown_kind (entries : List ObsRecord) (type : String)
    (h1 : type ≠ "LabSet") (h2 : type ≠ "Test") :
    parseEntries entries type = some [] := by
  simp [parseEntries, h1, h2]

/-- Witness for C6 at the kind `"Obs"`. -/
theorem parseEntries_unknown_kind_witness :
    parseEntries sampleLabEntries "Obs" = some [] :=
  parseEntries_unknown_kind sampleLabEntries "Obs" (by decide) (by decide)

/-- C9. For kind `LabSet`, `parseEntries` reads `members` of every entry
unconditionally: it succeeds exactly when every entry's `members` is
present, and an entry with absent `members` makes it fail (throw) rather
than be skipped as an empty group. -/
theorem parseEntries_labSet_members_total (entries : List ObsRecord) :
    (parseEntries entries "LabSet").isSome ↔
      ∀ e ∈ entries, e.members.isSome := by
  rw [parseEntries_labSet_eq]
  exact labSetLoop_isSome entries 0 []

/-- C7. When the upstream fetch has loaded with no error but no panel's
`uuid` equals the requested identifier, `useTimelineData` returns
`{data: {parsedTime: {}}, loaded, error: Error('panel data missing')}`,
with `loaded` kept at its prior (upstream) value. -/
theorem useTimelineData_panel_missing (fmt : DateFns) (fetch : FetchResult)
    (panelUuid : Option String) (obs : List (String × Panel))
    (hobs : fetch.sortedObs = some obs) (hl : fetch.loaded = true)
    (he : fetch.error = none)
    (hnone : ∀ kv ∈ obs, panelUuid ≠ some kv.2.uuid) :
    useTimelineData fmt fetch panelUuid =
      some ⟨.empty, fetch.loaded, some "panel data missing"⟩ := by
  have hfind : obs.find? (fun kv => panelUuid = some kv.2.uuid) = none := by
    rw [List.find?_eq_none]
    intro kv hkv
    simp only [decide_eq_true_eq]
    exact hnone kv hkv
  simp [useTimelineData, hobs, hl, he, hfind]

/-- Witness for C7: a ready fetch holding only uuid `"u1"`, asked for
`"nope"`. -/
theorem useTimelineData_panel_missing_witness :
    useTimelineData sampleFns sampleFetch (some "nope") =
      some ⟨.empty, sampleFetch.loaded, some "panel data missing"⟩ :=
  useTimelineData_panel_missing sampleFns sampleFetch (some "nope")
    [("Chemistry", samplePanel)] rfl rfl rfl (by decide)

/-- C8. Whenever `sortedObs` is absent, `loaded` is false, or `error` is
truthy, all three orchestrators return the upstream `loaded` and `error`
untouched with their placeholder `data`, applying no grouping or time-axis
transform. -/
theorem orchestrators_propagate_not_ready (fmt : DateFns) (fetch : FetchResult)
    (panelUuid : Option String)
    (h : fetch.sortedObs = none ∨ fetch.loaded = false ∨ fetch.error.isSome = true) :
    useTimelineData fmt fetch panelUuid =
      some ⟨.empty, fetch.loaded, fetch.error⟩ ∧
    useAllTimelineData fmt fetch panelUuid =
      some ⟨[.empty], fetch.loaded, fetch.error⟩ ∧
    usePatientPanels fetch = ⟨.placeholder, fetch.loaded, fetch.error⟩ := by
  have hcond : (fetch.sortedObs.isNone || !fetch.loaded || fetch.error.isSome) = true := by
    rcases h with h | h | h
    · simp [h]
    · simp [h]
    · simp [h]
  refine ⟨?_, ?_, ?_⟩ <;>
    simp [useTimelineData, useAllTimelineData, usePatientPanels, hcond]

/-- Witness for C8 at a pending fetch (`sortedObs` absent, not loaded). -/
theorem orchestrators_propagate_not_ready_witness :
    useTimelineData sampleFns pendingFetch none =
      some ⟨.empty, pendingFetch.loaded, pendingFetch.error⟩ ∧
    useAllTimelineData sampleFns pendingFetch none =
      some ⟨[.empty], pendingFetch.loaded, pendingFetch.error⟩ ∧
    usePatientPanels pendingFetch =
      ⟨.placeholder, pendingFetch.loaded, pendingFetch.error⟩ :=
  orchestrators_propagate_not_ready sampleFns pendingFetch none (Or.inl rfl)

/-- C10. `useAllTimelineData` never reads its `panelUuid` parameter: for a
fixed upstream fetch result, any two identifier arguments give structurally
equal output. -/
theorem useAllTimelineData_ignores_panelUuid (fmt : DateFns) (fetch : FetchResult)
    (u1 u2 : Option String) :
    useAllTimelineData fmt fetch u1 = useAllTimelineData fmt fetch u2 := rfl
